import Mathlib

/-!
Shallow embedding of `src/roulette.py` (coffee_roulette): the `Person` and
`Connection` namedtuples, the `Roulette` class state, `Roulette.generate_pairs`,
`Roulette.add_participant`, and the week lookup performed by
`Roulette.send_participants_email`.

Participants are modelled generically by a type `α` (the scheduler never
inspects the fields of a participant record, it only moves references around
and compares them for equality).  The `random.choice` call in the odd-size
branch is modelled by an oracle `pick : Nat → Nat`: for week `i` the chosen
element of `weekly_pairs` is the one at position `pick i % weekly_pairs.length`,
so every possible outcome of `random.choice` corresponds to some oracle.
-/

/-- The `Person` namedtuple: `name`, `contact`, and the optional
classification fields `team` and `year` (defaulted to `None`). -/
structure PersonT where
  name : String
  contact : String
  team : Option String
  year : Option String
deriving DecidableEq

/-- The `Connection` namedtuple: `person_1`, `person_2`, `person_3`;
`person_3` is `None` for a plain pair. -/
structure ConnectionT (α : Type) where
  person_1 : α
  person_2 : α
  person_3 : Option α
deriving DecidableEq

instance [Inhabited α] : Inhabited (ConnectionT α) := ⟨⟨default, default, none⟩⟩

/-- Values stored in the `config` dictionary. -/
inductive ConfigVal where
  | s (v : String)
  | i (v : Int)
  | b (v : Bool)
deriving DecidableEq

/-- The default `config` dictionary set in `Roulette.__init__` (before
`read_config` overwrites it from `config.yaml`; reading the file is I/O and
out of scope — no claim depends on the config contents, only on the field
being left alone). -/
def default_config : List (String × ConfigVal) :=
  [("participant_file", .s "participants.csv"),
   ("pairs_csv_file", .s "pairs.csv"),
   ("pairs_md_file", .s "pairs.md"),
   ("name_column_index", .i 0),
   ("email_column_index", .i 1),
   ("team_column_index", .i (-1)),
   ("year_column_index", .i (-1)),
   ("send_email", .b false),
   ("week_num", .i 1),
   ("deadline", .s "01/01/1970")]

/-- The mutable state of a `Roulette` object: `self.pairings`,
`self.participants`, `self.weeks`, `self.config`. -/
structure Roulette (α : Type) where
  pairings : List (List (ConnectionT α))
  participants : List α
  weeks : Nat
  config : List (String × ConfigVal)
deriving DecidableEq

/-- State after `Roulette.__init__`. -/
def initRoulette (α : Type) : Roulette α :=
  { pairings := [], participants := [], weeks := 0, config := default_config }

/-- Python's `%` on integers: for a nonzero modulus the remainder has the
sign of the modulus, which for a positive modulus is exactly `Int.emod`
(result in `[0, m)`).  Python raises `ZeroDivisionError` at modulus 0; the
only call site where the modulus can be 0 is a roster of size 1, captured
separately by `generate_pairs_run`. -/
def pyMod (a m : Int) : Int := a % m

/-- The body of the `for i in range(n)` loop of `Roulette.generate_pairs`:
build week `i`'s list of connections.

* the first append handles "the infinite pairing": `participants[i]` with
  `participants[n - 1]`;
* then `for k in range(1, n // 2)` appends the connection of
  `participants[(i + k) % (n - 1)]` with `participants[(i - k) % (n - 1)]`;
* `if n % 2 == 1`, the left-over person `participants[(n // 2 + i) % (n - 1)]`
  is added as third member to a `random.choice` of the week's pairs (modelled
  by `pick`): the new triple is appended and the chosen pair removed
  (`List.erase` = `list.remove`, first occurrence). -/
def weeklyPairs [Inhabited α] [DecidableEq α] (participants : List α)
    (i pick : Nat) : List (ConnectionT α) :=
  let n := participants.length
  let base : List (ConnectionT α) :=
    ⟨participants.getD i default, participants.getD (n - 1) default, none⟩ ::
      (List.range' 1 (n / 2 - 1)).map (fun (k : Nat) =>
        ⟨participants.getD (pyMod ((i : Int) + (k : Int)) ((n : Int) - 1)).toNat default,
         participants.getD (pyMod ((i : Int) - (k : Int)) ((n : Int) - 1)).toNat default,
         none⟩)
  if n % 2 = 1 then
    let missing_person := participants.getD (pyMod ((n / 2 + i : Nat) : Int) ((n : Int) - 1)).toNat default
    let random_pair := base.getD (pick % base.length) default
    let new_triple : ConnectionT α :=
      ⟨random_pair.person_1, random_pair.person_2, some missing_person⟩
    (base ++ [new_triple]).erase random_pair
  else
    base

/-- `Roulette.generate_pairs`: `n = len(self.participants)`; for each
`i in range(n)` the week's connection list is built and appended to
`self.pairings`.  `pick i` supplies the `random.choice` outcome of week `i`.
This total function agrees with the Python method for every `n ≠ 1`; at
`n = 1` Python raises `ZeroDivisionError` instead of returning (the zero
modulus in `weeklyPairs`), which `generate_pairs_run` models — theorems about
the state after a successful call therefore carry an `n ≠ 1` guard (or a
stronger size hypothesis). -/
def generate_pairs [Inhabited α] [DecidableEq α] (pick : Nat → Nat)
    (s : Roulette α) : Roulette α :=
  let n := s.participants.length
  (List.range n).foldl
    (fun st i =>
      { st with pairings := st.pairings ++ [weeklyPairs st.participants i (pick i)] })
    s

/-- Outcome of actually running `Roulette.generate_pairs` under Python
semantics.  When `len(self.participants) == 1` the loop body evaluates
`(n // 2 + i) % (n - 1)` with modulus `n - 1 == 0` (the odd branch is taken
and `n - 1 = 0` exactly when `n = 1`), so Python raises `ZeroDivisionError`
before any week is appended; for every other roster size no zero modulus is
ever evaluated and the call returns normally with the updated state. -/
def generate_pairs_run [Inhabited α] [DecidableEq α] (pick : Nat → Nat)
    (s : Roulette α) : Except String (Roulette α) :=
  if s.participants.length = 1 then
    .error "ZeroDivisionError: integer division or modulo by zero"
  else
    .ok (generate_pairs pick s)

/-- `Roulette.add_participant`: append to `self.participants` and increment
`self.weeks`. -/
def add_participant (s : Roulette α) (person : α) : Roulette α :=
  { s with participants := s.participants ++ [person], weeks := s.weeks + 1 }

/-- A `Roulette` populated by calling `add_participant` on each roster member
in order (the usage pattern of `__main__` and `read_participants_from_file`). -/
def rouletteOf (ps : List α) : Roulette α :=
  ps.foldl add_participant (initRoulette α)

/-- The schedule produced for a roster: populate a fresh `Roulette` and run
`generate_pairs` once. -/
def scheduleOf [Inhabited α] [DecidableEq α] (pick : Nat → Nat)
    (ps : List α) : List (List (ConnectionT α)) :=
  (generate_pairs pick (rouletteOf ps)).pairings

/-- Python list indexing `l[i]`: a negative index counts from the end; an
index out of range raises `IndexError`. -/
def pyListGet (l : List β) (i : Int) : Except String β :=
  let j : Int := if i < 0 then i + l.length else i
  if h : 0 ≤ j ∧ j.toNat < l.length then .ok (l.get ⟨j.toNat, h.2⟩)
  else .error "IndexError"

/-- The week lookup in `Roulette.send_participants_email`:
`self.pairings[week_num - 1]`, re-raising `IndexError` as
`IndexError("Invalid week number")`. -/
def weekLookup (pairings : List (List (ConnectionT α)))
    (week_num : Int) : Except String (List (ConnectionT α)) :=
  match pyListGet pairings (week_num - 1) with
  | .ok w => .ok w
  | .error _ => .error "Invalid week number"

/-- Membership of a participant in a connection (the scheduler compares
participant records by value). -/
def ConnectionT.has (c : ConnectionT α) (x : α) : Prop :=
  x = c.person_1 ∨ x = c.person_2 ∨ c.person_3 = some x

instance [DecidableEq α] (c : ConnectionT α) (x : α) : Decidable (c.has x) := by
  unfold ConnectionT.has; infer_instance

/-- Two participants meet in a given week when some connection of that week
contains both. -/
def pairedIn (week : List (ConnectionT α)) (A B : α) : Prop :=
  ∃ c ∈ week, c.has A ∧ c.has B

instance [DecidableEq α] (week : List (ConnectionT α)) (A B : α) :
    Decidable (pairedIn week A B) := by
  unfold pairedIn; infer_instance

/-- Number of weeks of a schedule in which two participants meet. -/
def weeksTogether [DecidableEq α] (sched : List (List (ConnectionT α)))
    (A B : α) : Nat :=
  sched.countP (fun w => decide (pairedIn w A B))

/-- Index-level view of an even-size week: the pairs of roster indices built
by the loop body (`(i, n-1)` and, for `k` in `1..n/2-1`,
`((i+k) mod (n-1), (i-k) mod (n-1))`, the second written without integer
subtraction). -/
def wkIdx (n i : Nat) : List (Nat × Nat) :=
  (i, n - 1) ::
    (List.range' 1 (n / 2 - 1)).map (fun k =>
      ((i + k) % (n - 1), (i + (n - 1) - k) % (n - 1)))

/-- Index-level pair membership in a week. -/
def hasPairIdx (n i a b : Nat) : Prop :=
  ∃ q ∈ wkIdx n i, (q.1 = a ∧ q.2 = b) ∨ (q.1 = b ∧ q.2 = a)

instance (n i a b : Nat) : Decidable (hasPairIdx n i a b) := by
  unfold hasPairIdx; infer_instance

/-! ### Structural lemmas -/

/-- Folding `add_participant` appends the roster and bumps `weeks` once per
participant; `pairings` and `config` are untouched. -/
theorem foldl_add_participant (ps : List α) (s : Roulette α) :
    ps.foldl add_participant s =
      { s with participants := s.participants ++ ps, weeks := s.weeks + ps.length } := by
  induction ps generalizing s with
  | nil => simp
  | cons p ps ih =>
    simp only [List.foldl_cons, ih, add_participant]
    simp [List.append_assoc]
    omega

theorem rouletteOf_participants (ps : List α) : (rouletteOf ps).participants = ps := by
  simp [rouletteOf, foldl_add_participant, initRoulette]

theorem rouletteOf_pairings (ps : List α) : (rouletteOf ps).pairings = [] := by
  simp [rouletteOf, foldl_add_participant, initRoulette]

theorem rouletteOf_weeks (ps : List α) : (rouletteOf ps).weeks = ps.length := by
  simp [rouletteOf, foldl_add_participant, initRoulette]

/-- The week loop only ever appends to `pairings`, leaving `participants`,
`weeks` and `config` alone. -/
theorem foldl_weeks [Inhabited α] [DecidableEq α] (pick : Nat → Nat)
    (l : List Nat) (s : Roulette α) :
    l.foldl
      (fun st i =>
        { st with pairings := st.pairings ++ [weeklyPairs st.participants i (pick i)] })
      s =
      { s with pairings := (s.pairings ++
          l.map (fun i => weeklyPairs s.participants i (pick i))) } := by
  induction l generalizing s with
  | nil => simp
  | cons i l ih =>
    simp only [List.foldl_cons, List.map_cons]
    rw [ih]
    simp [List.append_assoc]

/-- The week loop of `generate_pairs` only appends to `pairings`: the whole
call equals appending the list of generated weeks. -/
theorem generate_pairs_eq [Inhabited α] [DecidableEq α] (pick : Nat → Nat)
    (s : Roulette α) :
    generate_pairs pick s =
      { s with pairings := (s.pairings ++
          (List.range s.participants.length).map
            (fun i => weeklyPairs s.participants i (pick i))) } := by
  unfold generate_pairs
  exact foldl_weeks pick (List.range s.participants.length) s

theorem scheduleOf_eq [Inhabited α] [DecidableEq α] (pick : Nat → Nat) (ps : List α) :
    scheduleOf pick ps =
      (List.range ps.length).map (fun i => weeklyPairs ps i (pick i)) := by
  simp [scheduleOf, generate_pairs_eq, rouletteOf_participants, rouletteOf_pairings]

/-! ### Python index arithmetic in natural-number form -/

/-- The first loop index `(i + k) % (n - 1)`, both operands nonnegative. -/
theorem idx_plus (n i k : Nat) (hn : 1 ≤ n) :
    (pyMod ((i : Int) + k) ((n : Int) - 1)).toNat = (i + k) % (n - 1) := by
  have h1 : ((n : Int) - 1) = ((n - 1 : Nat) : Int) := by omega
  rw [pyMod, h1, show ((i : Int) + k) = ((i + k : Nat) : Int) by push_cast; ring,
    ← Int.ofNat_emod, Int.toNat_ofNat]

/-- The second loop index `(i - k) % (n - 1)`: Python keeps the remainder
nonnegative, so for `k ≤ n - 1` it equals `(i + (n - 1) - k) % (n - 1)`. -/
theorem idx_minus (n i k : Nat) (hn : 1 ≤ n) (hk : k ≤ n - 1) :
    (pyMod ((i : Int) - k) ((n : Int) - 1)).toNat = (i + (n - 1) - k) % (n - 1) := by
  have h1 : ((n : Int) - 1) = ((n - 1 : Nat) : Int) := by omega
  have hk' : k ≤ i + (n - 1) := le_trans hk (Nat.le_add_left _ i)
  have h2 : ((i + (n - 1) - k : Nat) : Int) = (i : Int) - k + ((n - 1 : Nat) : Int) := by
    rw [Nat.cast_sub hk']
    push_cast
    ring
  have h3 : ((i : Int) - k) % ((n - 1 : Nat) : Int) =
      (((i : Int) - k) + ((n - 1 : Nat) : Int)) % ((n - 1 : Nat) : Int) := by
    have h := Int.add_mul_emod_self_left ((i : Int) - k) ((n - 1 : Nat) : Int) 1
    rw [mul_one] at h
    exact h.symm
  rw [pyMod, h1, h3, ← h2, ← Int.ofNat_emod, Int.toNat_ofNat]

/-- The missing-person index `(n // 2 + i) % (n - 1)`. -/
theorem idx_missing (n i : Nat) (hn : 1 ≤ n) :
    (pyMod ((n / 2 + i : Nat) : Int) ((n : Int) - 1)).toNat = (n / 2 + i) % (n - 1) := by
  have h1 : ((n : Int) - 1) = ((n - 1 : Nat) : Int) := by omega
  rw [pyMod, h1, ← Int.ofNat_emod, Int.toNat_ofNat]

/-- For an even roster the odd branch is skipped and the week is exactly the
index-level week `wkIdx`, with each index pair turned into a Connection. -/
theorem weeklyPairs_even [Inhabited α] [DecidableEq α] (ps : List α) (i pick : Nat)
    (heven : ps.length % 2 = 0) (hn : 2 ≤ ps.length) :
    weeklyPairs ps i pick =
      (wkIdx ps.length i).map
        (fun q => ⟨ps.getD q.1 default, ps.getD q.2 default, none⟩) := by
  simp only [weeklyPairs, wkIdx]
  rw [if_neg (by omega)]
  simp only [List.map_cons, List.map_map]
  congr 1
  apply List.map_congr_left
  intro k hk
  have hk' := List.mem_range'_1.mp hk
  have hkle : k ≤ ps.length - 1 := by omega
  rw [idx_plus ps.length i k (by omega), idx_minus ps.length i k (by omega) hkle]
  rfl

/-- Membership in the index-level week. -/
theorem mem_wkIdx (n i : Nat) (hn : 2 ≤ n) {q : Nat × Nat} :
    q ∈ wkIdx n i ↔
      q = (i, n - 1) ∨
        ∃ k, (1 ≤ k ∧ k < n / 2) ∧
          q = ((i + k) % (n - 1), (i + (n - 1) - k) % (n - 1)) := by
  have hsplit : 1 + (n / 2 - 1) = n / 2 := by omega
  simp only [wkIdx, List.mem_cons, List.mem_map, List.mem_range'_1, hsplit]
  constructor
  · rintro (h | ⟨k, hk, hq⟩)
    · exact Or.inl h
    · exact Or.inr ⟨k, hk, hq.symm⟩
  · rintro (h | ⟨k, hk, hq⟩)
    · exact Or.inl h
    · exact Or.inr ⟨k, hk, hq.symm⟩

/-- Every index occurring in a week is a valid roster index. -/
theorem wkIdx_lt (n i : Nat) (hn : 2 ≤ n) (hi : i < n) :
    ∀ q ∈ wkIdx n i, q.1 < n ∧ q.2 < n := by
  intro q hq
  rcases (mem_wkIdx n i hn).mp hq with h | ⟨k, _, h⟩
  · subst h; exact ⟨hi, by omega⟩
  · subst h
    refine ⟨lt_trans (Nat.mod_lt _ (by omega)) (by omega),
      lt_trans (Nat.mod_lt _ (by omega)) (by omega)⟩

/-- Indices of the rotating (non-anchor) pairs stay below `n - 1`. -/
theorem wkIdx_tail_lt (n i k : Nat) (hn : 2 ≤ n) :
    (i + k) % (n - 1) < n - 1 ∧ (i + (n - 1) - k) % (n - 1) < n - 1 :=
  ⟨Nat.mod_lt _ (by omega), Nat.mod_lt _ (by omega)⟩

/-! ### Which weeks contain a given pair of roster indices (even rosters) -/

theorem hasPairIdx_comm (n i a b : Nat) : hasPairIdx n i a b ↔ hasPairIdx n i b a := by
  unfold hasPairIdx
  constructor
  · rintro ⟨q, hq, h⟩
    exact ⟨q, hq, h.symm⟩
  · rintro ⟨q, hq, h⟩
    exact ⟨q, hq, h.symm⟩

/-- A pair `{a, n-1}` with `a < n-1` occurs in week `i` exactly when `i = a`
(only the anchor connection can contain the last roster index). -/
theorem hasPairIdx_anchor (n i a : Nat) (hn : 2 ≤ n) (ha : a < n - 1) :
    hasPairIdx n i a (n - 1) ↔ i = a := by
  constructor
  · rintro ⟨q, hq, h⟩
    rcases (mem_wkIdx n i hn).mp hq with rfl | ⟨k, hk, rfl⟩
    · rcases h with ⟨h1, _⟩ | ⟨_, h2⟩
      · exact h1
      · omega
    · have h1 := wkIdx_tail_lt n i k hn
      rcases h with ⟨_, h2⟩ | ⟨h2, _⟩ <;> simp only at h2 <;> omega
  · rintro rfl
    exact ⟨(i, n - 1), (mem_wkIdx n i hn).mpr (Or.inl rfl), Or.inl ⟨rfl, rfl⟩⟩

/-- A pair of indices both below `n-1` occurs in week `i` exactly when
`2 i ≡ a + b (mod n-1)` — the circle-method incidence condition. -/
theorem hasPairIdx_inner (n i a b : Nat) (heven : n % 2 = 0) (hn : 2 ≤ n)
    (ha : a < n - 1) (hb : b < n - 1) (hab : a ≠ b) (hi : i < n) :
    hasPairIdx n i a b ↔ (2 * i) % (n - 1) = (a + b) % (n - 1) := by
  have hm1 : 1 ≤ n - 1 := by omega
  have hm2 : 2 ≤ n - 1 := by omega
  constructor
  · rintro ⟨q, hq, h⟩
    rcases (mem_wkIdx n i hn).mp hq with rfl | ⟨k, hk, rfl⟩
    · rcases h with ⟨_, h2⟩ | ⟨h2, _⟩ <;> simp only at h2 <;> omega
    · have hkm : k ≤ n - 1 := by omega
      have e1 : (i + k) % (n - 1) + (i + (n - 1) - k) % (n - 1) ≡
          (i + k) + (i + (n - 1) - k) [MOD n - 1] :=
        (Nat.mod_modEq _ _).add (Nat.mod_modEq _ _)
      have e2 : (i + k) + (i + (n - 1) - k) = 2 * i + (n - 1) := by omega
      have e3 : (2 * i + (n - 1)) % (n - 1) = (2 * i) % (n - 1) := Nat.add_mod_right _ _
      have e4 : a + b ≡ 2 * i [MOD n - 1] := by
        have hsum : a + b = (i + k) % (n - 1) + (i + (n - 1) - k) % (n - 1) := by
          rcases h with ⟨h1, h2⟩ | ⟨h1, h2⟩ <;> simp only at h1 h2 <;> omega
        rw [hsum]
        exact (e1.trans (e2 ▸ Nat.ModEq.refl _)).trans e3
      exact e4.symm
  · intro hcong
    have hcong' : 2 * i ≡ a + b [MOD n - 1] := hcong
    have hi' : i % (n - 1) < n - 1 := Nat.mod_lt _ (by omega)
    have hk0lt : (a + (n - 1) - i % (n - 1)) % (n - 1) < n - 1 := Nat.mod_lt _ (by omega)
    have f2 : (a + (n - 1) - i % (n - 1)) % (n - 1) + i % (n - 1) ≡ a [MOD n - 1] := by
      have h1 : (a + (n - 1) - i % (n - 1)) % (n - 1) + i % (n - 1) ≡
          (a + (n - 1) - i % (n - 1)) + i % (n - 1) [MOD n - 1] :=
        (Nat.mod_modEq _ _).add_right _
      have h2 : (a + (n - 1) - i % (n - 1)) + i % (n - 1) = a + (n - 1) := by omega
      rw [h2] at h1
      exact h1.trans (Nat.add_mod_right a (n - 1))
    have f3 : 2 * (i % (n - 1)) ≡ a + b [MOD n - 1] :=
      (((Nat.mod_modEq i (n - 1)).mul_left 2)).trans hcong'
    have f4 : (a + (n - 1) - i % (n - 1)) % (n - 1) ≠ 0 := by
      intro h0
      rw [h0, Nat.zero_add] at f2
      have hia : i % (n - 1) = a := by
        have h := f2
        unfold Nat.ModEq at h
        rwa [Nat.mod_eq_of_lt hi', Nat.mod_eq_of_lt ha] at h
      rw [hia, two_mul] at f3
      have hba : a ≡ b [MOD n - 1] := Nat.ModEq.add_left_cancel (Nat.ModEq.refl a) f3
      unfold Nat.ModEq at hba
      rw [Nat.mod_eq_of_lt ha, Nat.mod_eq_of_lt hb] at hba
      exact hab hba
    have f5 : (i + (a + (n - 1) - i % (n - 1)) % (n - 1)) % (n - 1) = a := by
      have h1 : i % (n - 1) + (a + (n - 1) - i % (n - 1)) % (n - 1) ≡
          i + (a + (n - 1) - i % (n - 1)) % (n - 1) [MOD n - 1] :=
        (Nat.mod_modEq i (n - 1)).add_right _
      have h2 : i + (a + (n - 1) - i % (n - 1)) % (n - 1) ≡ a [MOD n - 1] :=
        (h1.symm).trans (Nat.add_comm _ _ ▸ f2)
      unfold Nat.ModEq at h2
      rwa [Nat.mod_eq_of_lt ha] at h2
    have f6 : (i + (n - 1) - (a + (n - 1) - i % (n - 1)) % (n - 1)) % (n - 1) = b := by
      have hXk : (i + (n - 1) - (a + (n - 1) - i % (n - 1)) % (n - 1)) +
          (a + (n - 1) - i % (n - 1)) % (n - 1) = i + (n - 1) := by omega
      have h1 : (i + (n - 1) - (a + (n - 1) - i % (n - 1)) % (n - 1)) + a ≡
          (i + (n - 1) - (a + (n - 1) - i % (n - 1)) % (n - 1)) +
            ((a + (n - 1) - i % (n - 1)) % (n - 1) + i % (n - 1)) [MOD n - 1] :=
        (f2.symm).add_left _
      have h2 : (i + (n - 1) - (a + (n - 1) - i % (n - 1)) % (n - 1)) +
          ((a + (n - 1) - i % (n - 1)) % (n - 1) + i % (n - 1)) =
          (i + (n - 1)) + i % (n - 1) := by omega
      rw [h2] at h1
      have h3 : (i + (n - 1)) + i % (n - 1) ≡ i + i % (n - 1) [MOD n - 1] := by
        have : (i + (n - 1)) + i % (n - 1) = (i + i % (n - 1)) + (n - 1) := by omega
        rw [this]
        exact Nat.add_mod_right _ _
      have h4 : i + i % (n - 1) ≡ i % (n - 1) + i % (n - 1) [MOD n - 1] :=
        ((Nat.mod_modEq i (n - 1)).symm).add_right _
      have h5 : (i + (n - 1) - (a + (n - 1) - i % (n - 1)) % (n - 1)) + a ≡
          a + b [MOD n - 1] := by
        have h6 := (h1.trans h3).trans h4
        have h7 : i % (n - 1) + i % (n - 1) = 2 * (i % (n - 1)) := by omega
        rw [h7] at h6
        exact h6.trans f3
      have h8 : a + (i + (n - 1) - (a + (n - 1) - i % (n - 1)) % (n - 1)) ≡
          a + b [MOD n - 1] := (Nat.add_comm _ _) ▸ h5
      have h9 : (i + (n - 1) - (a + (n - 1) - i % (n - 1)) % (n - 1)) ≡ b [MOD n - 1] :=
        Nat.ModEq.add_left_cancel (Nat.ModEq.refl a) h8
      unfold Nat.ModEq at h9
      rwa [Nat.mod_eq_of_lt hb] at h9
    rcases le_or_lt ((a + (n - 1) - i % (n - 1)) % (n - 1)) (n / 2 - 1) with hsmall | hbig
    · refine ⟨((i + (a + (n - 1) - i % (n - 1)) % (n - 1)) % (n - 1),
        (i + (n - 1) - (a + (n - 1) - i % (n - 1)) % (n - 1)) % (n - 1)), ?_, ?_⟩
      · exact (mem_wkIdx n i hn).mpr (Or.inr ⟨(a + (n - 1) - i % (n - 1)) % (n - 1),
          ⟨by omega, by omega⟩, rfl⟩)
      · exact Or.inl ⟨f5, f6⟩
    · refine ⟨((i + ((n - 1) - (a + (n - 1) - i % (n - 1)) % (n - 1))) % (n - 1),
        (i + (n - 1) - ((n - 1) - (a + (n - 1) - i % (n - 1)) % (n - 1))) % (n - 1)), ?_, ?_⟩
      · exact (mem_wkIdx n i hn).mpr (Or.inr ⟨(n - 1) - (a + (n - 1) - i % (n - 1)) % (n - 1),
          ⟨by omega, by omega⟩, rfl⟩)
      · refine Or.inr ⟨?_, ?_⟩
        · have : i + ((n - 1) - (a + (n - 1) - i % (n - 1)) % (n - 1)) =
            i + (n - 1) - (a + (n - 1) - i % (n - 1)) % (n - 1) := by omega
          simp only [this]
          exact f6
        · have : i + (n - 1) - ((n - 1) - (a + (n - 1) - i % (n - 1)) % (n - 1)) =
            i + (a + (n - 1) - i % (n - 1)) % (n - 1) := by omega
          simp only [this]
          exact f5

/-! ### Counting the weeks containing a pair -/

/-- A Nodup list has at most two elements satisfying a predicate whose
satisfying elements all lie in a two-element set. -/
theorem countP_le_two (l : List Nat) (hl : l.Nodup) (p : Nat → Bool) (v₁ v₂ : Nat)
    (h : ∀ x ∈ l, p x = true → x = v₁ ∨ x = v₂) : l.countP p ≤ 2 := by
  rw [List.countP_eq_length_filter]
  have hsub : l.filter p ⊆ [v₁, v₂] := by
    intro x hx
    rcases List.mem_filter.mp hx with ⟨hxl, hpx⟩
    rcases h x hxl hpx with rfl | rfl <;> simp
  have hlen := ((hl.filter p).subperm hsub).length_le
  simpa using hlen

/-- Index-level statement of the coverage property: over the `n` generated
weeks, every unordered pair of distinct roster indices occurs in at least one
and at most two weeks. -/
theorem weeks_count_idx (n a b : Nat) (heven : n % 2 = 0) (hn : 2 ≤ n)
    (ha : a < n) (hb : b < n) (hab : a ≠ b) :
    1 ≤ (List.range n).countP (fun i => decide (hasPairIdx n i a b)) ∧
      (List.range n).countP (fun i => decide (hasPairIdx n i a b)) ≤ 2 := by
  rcases eq_or_ne b (n - 1) with rfl | hbne
  · have ha' : a < n - 1 := by omega
    constructor
    · apply List.countP_pos_iff.mpr
      exact ⟨a, List.mem_range.mpr (by omega),
        decide_eq_true ((hasPairIdx_anchor n a a hn ha').mpr rfl)⟩
    · apply countP_le_two _ (List.nodup_range n) _ a a
      intro x _ hx
      exact Or.inl ((hasPairIdx_anchor n x a hn ha').mp (of_decide_eq_true hx))
  · rcases eq_or_ne a (n - 1) with rfl | hane
    · have hb' : b < n - 1 := by omega
      have hswap : ∀ x ∈ List.range n,
          decide (hasPairIdx n x (n - 1) b) = decide (hasPairIdx n x b (n - 1)) := by
        intro x _
        exact decide_eq_decide.mpr (hasPairIdx_comm n x (n - 1) b)
      rw [List.countP_congr (fun x hx => by rw [hswap x hx])]
      constructor
      · apply List.countP_pos_iff.mpr
        exact ⟨b, List.mem_range.mpr (by omega),
          decide_eq_true ((hasPairIdx_anchor n b b hn hb').mpr rfl)⟩
      · apply countP_le_two _ (List.nodup_range n) _ b b
        intro x _ hx
        exact Or.inl ((hasPairIdx_anchor n x b hn hb').mp (of_decide_eq_true hx))
    · have ha' : a < n - 1 := by omega
      have hb' : b < n - 1 := by omega
      have hm1 : 0 < n - 1 := by omega
      have hodd : (n - 1) % 2 = 1 := by omega
      have hcop : Nat.gcd (n - 1) 2 = 1 :=
        (Nat.coprime_two_left.mpr (Nat.odd_iff.mpr hodd)).symm
      have hkey : (2 * (((a + b) * (n / 2)) % (n - 1))) % (n - 1) = (a + b) % (n - 1) := by
        have e1 : 2 * (((a + b) * (n / 2)) % (n - 1)) ≡
            2 * ((a + b) * (n / 2)) [MOD n - 1] := (Nat.mod_modEq _ _).mul_left 2
        have e2 : 2 * ((a + b) * (n / 2)) = (a + b) + (a + b) * (n - 1) := by
          obtain ⟨m, hm⟩ : ∃ m, n = m + 1 := ⟨n - 1, by omega⟩
          subst hm
          simp only [Nat.add_sub_cancel]
          have h2 : 2 * ((m + 1) / 2) = m + 1 := by omega
          calc 2 * ((a + b) * ((m + 1) / 2)) = (a + b) * (2 * ((m + 1) / 2)) := by ring
          _ = (a + b) * (m + 1) := by rw [h2]
          _ = (a + b) + (a + b) * m := by ring
        have e3 : ((a + b) + (a + b) * (n - 1)) % (n - 1) = (a + b) % (n - 1) :=
          Nat.add_mul_mod_self_right _ _ _
        calc (2 * (((a + b) * (n / 2)) % (n - 1))) % (n - 1)
            = (2 * ((a + b) * (n / 2))) % (n - 1) := e1
        _ = ((a + b) + (a + b) * (n - 1)) % (n - 1) := by rw [e2]
        _ = (a + b) % (n - 1) := e3
      have hi0lt : ((a + b) * (n / 2)) % (n - 1) < n - 1 := Nat.mod_lt _ hm1
      constructor
      · apply List.countP_pos_iff.mpr
        refine ⟨((a + b) * (n / 2)) % (n - 1), List.mem_range.mpr (by omega), ?_⟩
        exact decide_eq_true
          ((hasPairIdx_inner n _ a b heven hn ha' hb' hab (by omega)).mpr hkey)
      · apply countP_le_two _ (List.nodup_range n) _ (((a + b) * (n / 2)) % (n - 1)) (n - 1)
        intro x hx hpx
        have hxn : x < n := List.mem_range.mp hx
        have hcx : (2 * x) % (n - 1) = (a + b) % (n - 1) :=
          (hasPairIdx_inner n x a b heven hn ha' hb' hab hxn).mp (of_decide_eq_true hpx)
        have h2x : 2 * x ≡ 2 * (((a + b) * (n / 2)) % (n - 1)) [MOD n - 1] := by
          unfold Nat.ModEq
          rw [hcx, hkey]
        have hxc : x ≡ ((a + b) * (n / 2)) % (n - 1) [MOD n - 1] :=
          Nat.ModEq.cancel_left_of_coprime hcop h2x
        unfold Nat.ModEq at hxc
        rcases lt_or_ge x (n - 1) with hlt | hge
        · left
          rwa [Nat.mod_eq_of_lt hlt, Nat.mod_eq_of_lt hi0lt] at hxc
        · right
          omega

/-! ### Lifting from roster indices to participants -/

/-- On a duplicate-free roster, positions are recoverable from the records. -/
theorem getD_inj [Inhabited α] (ps : List α) (hnd : ps.Nodup) {x y : Nat}
    (hx : x < ps.length) (hy : y < ps.length)
    (h : ps.getD x default = ps.getD y default) : x = y := by
  rw [List.getD_eq_getElem ps default hx, List.getD_eq_getElem ps default hy] at h
  have hinj := List.nodup_iff_injective_get.mp hnd
  have hfin : (⟨x, hx⟩ : Fin ps.length) = ⟨y, hy⟩ := by
    apply hinj
    rw [List.get_eq_getElem, List.get_eq_getElem]
    exact h
  exact congrArg Fin.val hfin

/-- For an even duplicate-free roster, two distinct participants share a
connection of week `i` exactly when their roster indices form a pair of the
index-level week. -/
theorem pairedIn_weeklyPairs_iff [Inhabited α] [DecidableEq α] (ps : List α)
    (hnd : ps.Nodup) (heven : ps.length % 2 = 0) (hn : 2 ≤ ps.length)
    (i pick ia ib : Nat) (hi : i < ps.length) (hia : ia < ps.length)
    (hib : ib < ps.length) (hne : ia ≠ ib) :
    pairedIn (weeklyPairs ps i pick) (ps.getD ia default) (ps.getD ib default) ↔
      hasPairIdx ps.length i ia ib := by
  rw [weeklyPairs_even ps i pick heven hn]
  unfold pairedIn hasPairIdx
  constructor
  · rintro ⟨c, hc, hA, hB⟩
    obtain ⟨q, hq, rfl⟩ := List.mem_map.mp hc
    have hq1 : q.1 < ps.length := ((wkIdx_lt ps.length i hn hi) q hq).1
    have hq2 : q.2 < ps.length := ((wkIdx_lt ps.length i hn hi) q hq).2
    refine ⟨q, hq, ?_⟩
    have hA' : ia = q.1 ∨ ia = q.2 := by
      rcases hA with h | h | h
      · exact Or.inl (getD_inj ps hnd hia hq1 h)
      · exact Or.inr (getD_inj ps hnd hia hq2 h)
      · simp at h
    have hB' : ib = q.1 ∨ ib = q.2 := by
      rcases hB with h | h | h
      · exact Or.inl (getD_inj ps hnd hib hq1 h)
      · exact Or.inr (getD_inj ps hnd hib hq2 h)
      · simp at h
    rcases hA' with rfl | rfl <;> rcases hB' with rfl | rfl
    · exact absurd rfl hne
    · exact Or.inl ⟨rfl, rfl⟩
    · exact Or.inr ⟨rfl, rfl⟩
    · exact absurd rfl hne
  · rintro ⟨q, hq, h⟩
    refine ⟨⟨ps.getD q.1 default, ps.getD q.2 default, none⟩,
      List.mem_map.mpr ⟨q, hq, rfl⟩, ?_, ?_⟩
    · rcases h with ⟨h1, _⟩ | ⟨_, h2⟩
      · exact Or.inl (by rw [h1])
      · exact Or.inr (Or.inl (by rw [h2]))
    · rcases h with ⟨_, h2⟩ | ⟨h1, _⟩
      · exact Or.inr (Or.inl (by rw [h2]))
      · exact Or.inl (by rw [h1])

/-- The even branch of the week builder never reads the `random.choice`
oracle. -/
theorem weeklyPairs_pick_irrelevant [Inhabited α] [DecidableEq α] (ps : List α)
    (i p₁ p₂ : Nat) (heven : ps.length % 2 = 0) :
    weeklyPairs ps i p₁ = weeklyPairs ps i p₂ := by
  simp only [weeklyPairs]
  rw [if_neg (by omega), if_neg (by omega)]

/-! ### The claims -/

/-- C1.  The claim states that for every even roster every generated week
partitions the participants into disjoint pairs, no participant appearing
twice within one connection.  The code violates this in its final week: for
the roster `[0,1,2,3]` week 4 (index 3) is `[(3,3), (1,2)]` — the anchor
connection pairs participant 3 with itself and participant 0 appears in no
connection of that week (its `countP` is 0). -/
theorem c1_final_week_breaks_partition :
    scheduleOf (fun _ => 0) ([0, 1, 2, 3] : List Nat) =
      [[⟨0, 3, none⟩, ⟨1, 2, none⟩], [⟨1, 3, none⟩, ⟨2, 0, none⟩],
       [⟨2, 3, none⟩, ⟨0, 1, none⟩], [⟨3, 3, none⟩, ⟨1, 2, none⟩]] ∧
    ((scheduleOf (fun _ => 0) ([0, 1, 2, 3] : List Nat)).getD 3 []).countP
      (fun c => decide (c.has 0)) = 0 ∧
    ((scheduleOf (fun _ => 0) ([0, 1, 2, 3] : List Nat)).getD 3 []).countP
      (fun c => decide (c.has 3)) = 1 := by
  decide

/-- C2 counterexample.  The claim's index arithmetic predicts that for the
roster `[A,B,C,D]` (modelled as `[0,1,2,3]`) week 1 is `{A-C, B-D}`.  The
code's week 1 is `[(A,D), (B,C)]` and `A` and `C` do not meet in it. -/
theorem c2_counterexample :
    (scheduleOf (fun _ => 0) ([0, 1, 2, 3] : List Nat)).getD 0 [] =
      [⟨0, 3, none⟩, ⟨1, 2, none⟩] ∧
    decide (pairedIn ((scheduleOf (fun _ => 0) ([0, 1, 2, 3] : List Nat)).getD 0 []) 0 2)
      = false := by
  decide

/-- C2, amended.  For an even roster, week `i` consists of the anchor
connection of `participants[i]` with `participants[N-1]` followed, for each
`k` in `1..N/2-1`, by the connection of `participants[(i+k) mod (N-1)]` with
`participants[(i-k) mod (N-1)]` (not the claimed `(i±k) mod N` arithmetic
with a redirected self-pair). -/
theorem c2_week_formula [Inhabited α] [DecidableEq α] (ps : List α)
    (pick : Nat → Nat) (heven : ps.length % 2 = 0) (hn : 2 ≤ ps.length)
    (i : Nat) (hi : i < ps.length) :
    (scheduleOf pick ps).getD i [] =
      ⟨ps.getD i default, ps.getD (ps.length - 1) default, none⟩ ::
        (List.range' 1 (ps.length / 2 - 1)).map (fun k =>
          ⟨ps.getD ((i + k) % (ps.length - 1)) default,
           ps.getD ((i + (ps.length - 1) - k) % (ps.length - 1)) default, none⟩) := by
  rw [scheduleOf_eq]
  rw [List.getD_eq_getElem _ _ (by simpa using hi)]
  rw [List.getElem_map, List.getElem_range]
  rw [weeklyPairs_even ps i (pick i) heven hn]
  simp [wkIdx, List.map_map]

/-- Witness for C2's amended formula at the four-person roster, week 2. -/
theorem c2_week_formula_witness :
    ([0, 1, 2, 3] : List Nat).length % 2 = 0 ∧
    (scheduleOf (fun _ => 0) ([0, 1, 2, 3] : List Nat)).getD 1 [] =
      [⟨1, 3, none⟩, ⟨2, 0, none⟩] :=
  ⟨by decide,
    (c2_week_formula ([0, 1, 2, 3] : List Nat) (fun _ => 0) (by decide) (by decide) 1
      (by decide)).trans (by decide)⟩

/-- C3.  The claim states that for every odd roster every generated week has
exactly one triple and `(N-1)/2 - 1` pairs covering all participants exactly
once.  The code violates the coverage in its final week: for the roster
`[0,1,2]` week 3 (index 2) is the single triple `(2,2,1)` — participant 2
appears twice inside it and participant 0 is not covered at all. -/
theorem c3_final_week_breaks_cover :
    scheduleOf (fun _ => 0) ([0, 1, 2] : List Nat) =
      [[⟨0, 2, some 1⟩], [⟨1, 2, some 0⟩], [⟨2, 2, some 1⟩]] ∧
    ((scheduleOf (fun _ => 0) ([0, 1, 2] : List Nat)).getD 2 []).countP
      (fun c => decide (c.has 0)) = 0 := by
  decide

/-- C4.  After one `generate_pairs` call on a roster built by
`add_participant`, the number of generated weeks equals the roster size,
which equals the `weeks` counter. -/
theorem c4_weeks_equal_roster_size [Inhabited α] [DecidableEq α] (ps : List α)
    (pick : Nat → Nat) (hn : 2 ≤ ps.length) :
    (generate_pairs pick (rouletteOf ps)).pairings.length = ps.length ∧
    (generate_pairs pick (rouletteOf ps)).participants.length = ps.length ∧
    (generate_pairs pick (rouletteOf ps)).weeks = ps.length := by
  rw [generate_pairs_eq]
  simp [rouletteOf_participants, rouletteOf_pairings, rouletteOf_weeks]

/-- Witness for C4 on a two-person roster. -/
theorem c4_weeks_equal_roster_size_witness :
    2 ≤ ([0, 1] : List Nat).length ∧
    ((generate_pairs (fun _ => 0) (rouletteOf ([0, 1] : List Nat))).pairings.length = 2 ∧
     (generate_pairs (fun _ => 0) (rouletteOf ([0, 1] : List Nat))).participants.length = 2 ∧
     (generate_pairs (fun _ => 0) (rouletteOf ([0, 1] : List Nat))).weeks = 2) :=
  ⟨by decide, c4_weeks_equal_roster_size ([0, 1] : List Nat) (fun _ => 0) (by decide)⟩

/-- C5 counterexample.  The claim states that for rosters of size below 2 the
scheduler signals a validation error and produces nothing.  The code has no
size validation: on the empty roster `generate_pairs` returns normally (no
error) and yields an empty schedule — the state, including its empty
`pairings` list, is returned unchanged. -/
theorem c5_counterexample :
    generate_pairs_run (fun _ => 0) (rouletteOf ([] : List Nat)) =
      .ok (rouletteOf ([] : List Nat)) ∧
    (generate_pairs (fun _ => 0) (rouletteOf ([] : List Nat))).pairings = [] := by
  constructor <;> rfl

/-- C5, amended.  The scheduler performs no roster-size validation: a roster
of size 0 makes `generate_pairs` return the state unchanged (an empty
schedule, no error), and a roster of size 1 makes it crash mid-algorithm
with `ZeroDivisionError` from `(n // 2 + i) % (n - 1)` — neither case is a
validation error. -/
theorem c5_no_size_validation [Inhabited α] [DecidableEq α] (pick : Nat → Nat)
    (s : Roulette α) (hlt : s.participants.length < 2) :
    generate_pairs_run pick s =
      if s.participants.length = 0 then .ok s
      else .error "ZeroDivisionError: integer division or modulo by zero" := by
  unfold generate_pairs_run
  rcases eq_or_ne s.participants.length 0 with h0 | hne
  · rw [if_neg (by omega), if_pos h0]
    have hid : generate_pairs pick s = s := by
      rw [generate_pairs_eq, h0]
      simp
    rw [hid]
  · have h1 : s.participants.length = 1 := by omega
    rw [if_pos h1, if_neg (by omega)]

/-- Witness for C5's amended statement on a one-person roster. -/
theorem c5_no_size_validation_witness :
    (rouletteOf ([5] : List Nat)).participants.length < 2 ∧
    generate_pairs_run (fun _ => 0) (rouletteOf ([5] : List Nat)) =
      .error "ZeroDivisionError: integer division or modulo by zero" :=
  ⟨by decide,
    (c5_no_size_validation (fun _ => 0) (rouletteOf ([5] : List Nat)) (by decide)).trans rfl⟩

/-- C6.  The claim states that every week number outside `1..W` fails with an
out-of-range error.  The code's lookup `self.pairings[week_num - 1]` uses
Python indexing, so `week_num = 0` silently resolves to the LAST week
(index `-1`) and `week_num = -1` to the first (index `-2` of a 2-week
schedule); only indices beyond the negative wrap raise
`IndexError("Invalid week number")`.  Shown on the 2-week schedule of the
roster `[0,1]`. -/
theorem c6_week_zero_lookup :
    weekLookup (scheduleOf (fun _ => 0) ([0, 1] : List Nat)) 1 = .ok [⟨0, 1, none⟩] ∧
    weekLookup (scheduleOf (fun _ => 0) ([0, 1] : List Nat)) 2 = .ok [⟨1, 1, none⟩] ∧
    weekLookup (scheduleOf (fun _ => 0) ([0, 1] : List Nat)) 0 = .ok [⟨1, 1, none⟩] ∧
    weekLookup (scheduleOf (fun _ => 0) ([0, 1] : List Nat)) (-1) = .ok [⟨0, 1, none⟩] ∧
    weekLookup (scheduleOf (fun _ => 0) ([0, 1] : List Nat)) 3 = .error "Invalid week number" ∧
    weekLookup (scheduleOf (fun _ => 0) ([0, 1] : List Nat)) (-2) = .error "Invalid week number" :=
  ⟨rfl, rfl, rfl, rfl, rfl, rfl⟩

/-- C7.  For every duplicate-free even roster of size at least 2, any two
distinct participants share a connection in at least one and at most two of
the generated weeks, for every outcome of the randomness oracle. -/
theorem c7_pair_coverage [Inhabited α] [DecidableEq α] (ps : List α)
    (pick : Nat → Nat) (hnd : ps.Nodup) (heven : ps.length % 2 = 0)
    (hn : 2 ≤ ps.length) (A B : α) (hA : A ∈ ps) (hB : B ∈ ps) (hAB : A ≠ B) :
    1 ≤ weeksTogether (scheduleOf pick ps) A B ∧
      weeksTogether (scheduleOf pick ps) A B ≤ 2 := by
  obtain ⟨ia, hia, hgA⟩ := List.mem_iff_getElem.mp hA
  obtain ⟨ib, hib, hgB⟩ := List.mem_iff_getElem.mp hB
  have hgA' : ps.getD ia default = A := by
    rw [List.getD_eq_getElem ps default hia]; exact hgA
  have hgB' : ps.getD ib default = B := by
    rw [List.getD_eq_getElem ps default hib]; exact hgB
  have hne : ia ≠ ib := by
    intro h
    apply hAB
    rw [← hgA', ← hgB', h]
  rw [weeksTogether, scheduleOf_eq, List.countP_map]
  have hcnt : List.countP
      ((fun w => decide (pairedIn w A B)) ∘ (fun i => weeklyPairs ps i (pick i)))
      (List.range ps.length) =
      List.countP (fun i => decide (hasPairIdx ps.length i ia ib))
        (List.range ps.length) := by
    apply List.countP_congr
    intro x hx
    simp only [Function.comp_apply]
    rw [decide_eq_true_eq, decide_eq_true_eq]
    rw [← hgA', ← hgB']
    exact pairedIn_weeklyPairs_iff ps hnd heven hn x (pick x) ia ib
      (List.mem_range.mp hx) hia hib hne
  rw [hcnt]
  exact weeks_count_idx ps.length ia ib heven hn hia hib hne

/-- Witness for C7: participants 0 and 1 of the roster `[0,1,2,3]` meet in
between one and two of the four weeks. -/
theorem c7_pair_coverage_witness :
    ([0, 1, 2, 3] : List Nat).Nodup ∧
    (1 ≤ weeksTogether (scheduleOf (fun _ => 0) ([0, 1, 2, 3] : List Nat)) 0 1 ∧
      weeksTogether (scheduleOf (fun _ => 0) ([0, 1, 2, 3] : List Nat)) 0 1 ≤ 2) :=
  ⟨by decide,
    c7_pair_coverage ([0, 1, 2, 3] : List Nat) (fun _ => 0) (by decide) (by decide)
      (by decide) 0 1 (by decide) (by decide) (by decide)⟩

/-- C8.  For an even roster the odd-size branch is never taken, so the
schedule does not depend on the randomness oracle: two runs with any two
oracles produce identical schedules. -/
theorem c8_even_schedule_deterministic [Inhabited α] [DecidableEq α]
    (ps : List α) (pick pick' : Nat → Nat) (heven : ps.length % 2 = 0) :
    scheduleOf pick ps = scheduleOf pick' ps := by
  rw [scheduleOf_eq, scheduleOf_eq]
  apply List.map_congr_left
  intro i _
  exact weeklyPairs_pick_irrelevant ps i (pick i) (pick' i) heven

/-- Witness for C8 with two distinct oracles on a four-person roster. -/
theorem c8_even_schedule_deterministic_witness :
    ([0, 1, 2, 3] : List Nat).length % 2 = 0 ∧
    scheduleOf (fun _ => 0) ([0, 1, 2, 3] : List Nat) =
      scheduleOf (fun j => j + 7) ([0, 1, 2, 3] : List Nat) :=
  ⟨by decide,
    c8_even_schedule_deterministic ([0, 1, 2, 3] : List Nat) (fun _ => 0)
      (fun j => j + 7) (by decide)⟩

/-- C9.  The claim states that a two-person roster `[A,B]` yields two weeks
each consisting of the single pair `A-B`.  The code's week 2 is instead the
degenerate connection `(B,B)` pairing the second participant with itself —
it is not the pair `A-B` (the `decide` conjunct evaluates that comparison to
`false`). -/
theorem c9_two_person_schedule :
    scheduleOf (fun _ => 0) ([0, 1] : List Nat) = [[⟨0, 1, none⟩], [⟨1, 1, none⟩]] ∧
    decide ((scheduleOf (fun _ => 0) ([0, 1] : List Nat)).getD 1 [] = [⟨0, 1, none⟩])
      = false := by
  decide

/-- C10 counterexample.  The claim quantifies over every `Roulette` state,
but on a state with exactly one participant the Python call raises
`ZeroDivisionError` at `(n // 2 + i) % (n - 1)` before any
`pairings.append`: the run signals an error instead of returning a state
with one appended week, so `generate_pairs` does not "append exactly N new
week entries" there. -/
theorem c10_counterexample :
    generate_pairs_run (fun _ => 0)
        (⟨[], [7], 1, default_config⟩ : Roulette Nat) =
      .error "ZeroDivisionError: integer division or modulo by zero" := rfl

/-- C10, amended.  On every state whose participant count `N` is not 1 (at
`N = 1` the call raises and appends nothing), `generate_pairs` returns
normally, leaves `participants`, `weeks` and `config` unchanged and only
appends exactly `N` new week entries to the existing `pairings`;
consequently a second call returns normally too and appends `N` further
weeks, growing `pairings` by `2 N` in total rather than regenerating the
schedule. -/
theorem c10_generate_pairs_frame [Inhabited α] [DecidableEq α]
    (s : Roulette α) (pick pick' : Nat → Nat)
    (hne : s.participants.length ≠ 1) :
    generate_pairs_run pick s = .ok (generate_pairs pick s) ∧
    (generate_pairs pick s).participants = s.participants ∧
    (generate_pairs pick s).weeks = s.weeks ∧
    (generate_pairs pick s).config = s.config ∧
    (∃ ws, (generate_pairs pick s).pairings = s.pairings ++ ws ∧
      ws.length = s.participants.length) ∧
    generate_pairs_run pick' (generate_pairs pick s) =
      .ok (generate_pairs pick' (generate_pairs pick s)) ∧
    (generate_pairs pick' (generate_pairs pick s)).pairings.length =
      s.pairings.length + 2 * s.participants.length := by
  have hparts : (generate_pairs pick s).participants = s.participants := by
    rw [generate_pairs_eq]
  refine ⟨?_, hparts, ?_, ?_, ?_, ?_, ?_⟩
  · unfold generate_pairs_run
    rw [if_neg hne]
  · rw [generate_pairs_eq]
  · rw [generate_pairs_eq]
  · rw [generate_pairs_eq]
    exact ⟨_, rfl, by simp⟩
  · unfold generate_pairs_run
    rw [if_neg (by rw [hparts]; exact hne)]
  · rw [generate_pairs_eq pick' (generate_pairs pick s), generate_pairs_eq pick s]
    simp
    omega

/-- Witness for C10's amended statement on a concrete state with two
participants and one pre-existing week. -/
theorem c10_generate_pairs_frame_witness :
    (⟨[[⟨7, 7, none⟩]], [0, 1], 2, default_config⟩ : Roulette Nat).participants.length ≠ 1 ∧
    (generate_pairs (fun _ => 0)
        (⟨[[⟨7, 7, none⟩]], [0, 1], 2, default_config⟩ : Roulette Nat)).participants
      = [0, 1] ∧
    (generate_pairs (fun j => j) (generate_pairs (fun _ => 0)
        (⟨[[⟨7, 7, none⟩]], [0, 1], 2, default_config⟩ : Roulette Nat))).pairings.length
      = 1 + 2 * 2 := by
  have h := c10_generate_pairs_frame
    (⟨[[⟨7, 7, none⟩]], [0, 1], 2, default_config⟩ : Roulette Nat)
    (fun _ => 0) (fun j => j) (by decide)
  exact ⟨by decide, h.2.1, h.2.2.2.2.2.2⟩
